import Mathlib

/-!
Shallow embedding of the direct-message room index (`DMRoomMap`) from the
repository source.  The Direct Map (the content of the `m.direct` account-data
record) is modelled as an association list from user identifier to a list of
room identifiers; JavaScript object semantics (first-match lookup, in-place
update of an existing key, append of a fresh key, insertion-order iteration)
are captured by `jLookup` and `jSet`.  The mutable fields of the class become
the record `DMState`, and every method becomes a pure function returning its
result together with the successor state.  Externally observable effects that
the claims talk about (calls to `setAccountData`, `logger.warn`) are counted
in the state.
-/

/-- The view of a room object that `DMRoomMap` consumes from the session:
`guessDMUserId()` (a string, where the empty string is the falsy "no guess"),
`getDMInviter()`, `getMyMembership()` and `getInvitedAndJoinedMemberCount()`. -/
structure RoomInfo where
  roomId : String
  guessDMUserId : String
  getDMInviter : Option String
  getMyMembership : String
  getInvitedAndJoinedMemberCount : Nat
deriving DecidableEq

/-- The view of the Matrix client consumed by the index: the current user
identifier and the room-object lookup. -/
structure Client where
  myUserId : String
  getRoom : String → Option RoomInfo

/-- The Direct Map content: user identifier to list of room identifiers,
in JavaScript object insertion order. -/
abbrev DirectMap := List (String × List String)

/-- JavaScript object property read: the value at the key, if present. -/
def jLookup {α : Type} : List (String × α) → String → Option α
  | [], _ => none
  | p :: m, k => if p.1 == k then some p.2 else jLookup m k

/-- JavaScript object property write: update the value in place when the key
exists, otherwise append the new key (insertion order). -/
def jSet {α : Type} (m : List (String × α)) (k : String) (v : α) : List (String × α) :=
  if m.any (fun p => p.1 == k) then
    m.map (fun p => if p.1 == k then (k, v) else p)
  else
    m ++ [(k, v)]

/-- lodash `uniq`: de-duplicate keeping the first occurrence of each element. -/
def uniqJS (l : List String) : List String :=
  l.foldl (fun acc x => if x ∈ acc then acc else acc ++ [x]) []

/-- The event type string `EventType.Direct`. -/
def EventTypeDirect : String := "m.direct"

/-- The mutable fields of `DMRoomMap`, plus counters for the two observable
effects: `setAccountData` calls (the write-back) and `logger.warn` calls
(the diagnostic record). -/
structure DMState where
  roomToUser : Option (List (String × String))
  userToRooms : Option DirectMap
  hasSentOutPatchDirectAccountDataPatch : Bool
  mDirectEvent : DirectMap
  setAccountDataCalls : Nat
  loggerWarnCalls : Nat
deriving DecidableEq

/-- The constructor: read the current Direct Map from account data, defaulting
to the empty mapping when absent, and store a copy. -/
def initState (accountDirectContent : Option DirectMap) : DMState :=
  { roomToUser := none
    userToRooms := none
    hasSentOutPatchDirectAccountDataPatch := false
    mDirectEvent := accountDirectContent.getD []
    setAccountDataCalls := 0
    loggerWarnCalls := 0 }

/-- `onAccountData`: when the event type is the Direct Map type, replace the
stored map with a copy of the new content and invalidate both derived
indexes. -/
def onAccountData (st : DMState) (evType : String) (content : DirectMap) : DMState :=
  if evType == EventTypeDirect then
    { st with mDirectEvent := content, userToRooms := none, roomToUser := none }
  else
    st

/-- `patchUpSelfDMs`: for each room listed under the current user, ask the
room object for its best-guess DM counterpart; when the guess is a different
(truthy) user record a reassignment.  With no reassignments return `false`
and the map unchanged; otherwise drop the reassigned rooms from the self list
and append each room to its guessed user (creating or de-duplicating the
list), returning `true` and the patched map. -/
def patchUpSelfDMs (env : Client) (userToRooms : DirectMap) : Bool × DirectMap :=
  match jLookup userToRooms env.myUserId with
  | none => (false, userToRooms)
  | some selfRoomIds =>
    let guessedUserIdsThatChanged : List (String × String) :=
      selfRoomIds.filterMap (fun roomId =>
        match env.getRoom roomId with
        | some room =>
          if room.guessDMUserId ≠ "" ∧ room.guessDMUserId ≠ env.myUserId then
            some (room.guessDMUserId, roomId)
          else none
        | none => none)
    if guessedUserIdsThatChanged.isEmpty then
      (false, userToRooms)
    else
      let m1 := jSet userToRooms env.myUserId
        (selfRoomIds.filter (fun roomId =>
          ! guessedUserIdsThatChanged.any (fun ids => ids.2 == roomId)))
      let m2 := guessedUserIdsThatChanged.foldl (fun m ids =>
        match jLookup m ids.1 with
        | none => jSet m ids.1 [ids.2]
        | some roomIds => jSet m ids.1 (uniqJS (roomIds ++ [ids.2]))) m1
      (true, m2)

/-- `getUserToRooms`: return the cached User→Rooms index, rebuilding it from
the stored Direct Map on first access.  When the current user has a non-empty
self list, run the repair pass (which, through aliasing, also rewrites the
stored Direct Map), emit the diagnostic, and on the first patch of the process
lifetime attempt the account-data write-back. -/
def getUserToRooms (env : Client) (st : DMState) : DirectMap × DMState :=
  match st.userToRooms with
  | some m => (m, st)
  | none =>
    let userToRooms := st.mDirectEvent
    let selfDMs := (jLookup userToRooms env.myUserId).getD []
    if selfDMs ≠ [] then
      let r := patchUpSelfDMs env userToRooms
      if r.1 && ! st.hasSentOutPatchDirectAccountDataPatch then
        (r.2, { st with
                  mDirectEvent := r.2
                  userToRooms := some r.2
                  loggerWarnCalls := st.loggerWarnCalls + 1
                  hasSentOutPatchDirectAccountDataPatch := true
                  setAccountDataCalls := st.setAccountDataCalls + 1 })
      else
        (r.2, { st with
                  mDirectEvent := r.2
                  userToRooms := some r.2
                  loggerWarnCalls := st.loggerWarnCalls + 1 })
    else
      (userToRooms, { st with userToRooms := some userToRooms })

/-- `getDMRoomsForUserId`: the list of rooms for the user in the repaired
User→Rooms index, or the empty list when the user has no entry. -/
def getDMRoomsForUserId (env : Client) (st : DMState) (userId : String) :
    List String × DMState :=
  let r := getUserToRooms env st
  ((jLookup r.1 userId).getD [], r.2)

/-- The nested loop of `populateRoomToUser`: for each user in insertion order,
for each of the rooms of the user, write `roomToUser[roomId] = user`
(last writer wins). -/
def buildRoomToUser (m : DirectMap) : List (String × String) :=
  m.foldl (fun acc p => p.2.foldl (fun acc2 roomId => jSet acc2 roomId p.1) acc) []

/-- `populateRoomToUser`: invert the (repaired) User→Rooms index into the
Room→User index. -/
def populateRoomToUser (env : Client) (st : DMState) : DMState :=
  let r := getUserToRooms env st
  { r.2 with roomToUser := some (buildRoomToUser r.1) }

/-- The lookup performed by `getUserIdForRoomId` once the Room→User index is
in place: the mapped user for the room; with no entry, the room object invite
hint when the room exists, otherwise nothing. -/
def roomToUserResult (env : Client) (roomToUser : List (String × String))
    (roomId : String) : Option String :=
  match jLookup roomToUser roomId with
  | some u => some u
  | none =>
    match env.getRoom roomId with
    | some room => room.getDMInviter
    | none => none

/-- `getUserIdForRoomId`: lazily build Room→User, return the mapped user for
the room; with no entry, fall back to the room object invite hint when the
room exists. -/
def getUserIdForRoomId (env : Client) (st : DMState) (roomId : String) :
    Option String × DMState :=
  let st1 := match st.roomToUser with
    | none => populateRoomToUser env st
    | some _ => st
  (roomToUserResult env (st1.roomToUser.getD []) roomId, st1)

/-- `getDMRoomForIdentifiers`: intersect the room lists of the identifiers,
materialise the candidates as room objects, keep the ones with local
membership `join`, and return the first. -/
def getDMRoomForIdentifiers (env : Client) (st : DMState) (ids : List String) :
    Option RoomInfo × DMState :=
  let r := getUserToRooms env st
  let commonRooms0 : List String := match ids with
    | [] => []
    | i :: _ => (jLookup r.1 i).getD []
  let commonRooms := (ids.drop 1).foldl (fun common i =>
    let userRooms := (jLookup r.1 i).getD []
    common.filter (fun rm => userRooms.contains rm)) commonRooms0
  let joinedRooms := (commonRooms.map env.getRoom).filter
    (fun o => o.elim false (fun room => room.getMyMembership == "join"))
  (joinedRooms.head?.join, r.2)

/-- `getUniqueRoomsWithIndividuals`: over the keys of the Room→User index (or
the empty mapping when the index was never built), keep the rooms whose room
object exists with exactly two joined-or-invited members and a truthy mapped
user, and fold them into a user-to-room object (last writer wins per user). -/
def getUniqueRoomsWithIndividuals (env : Client) (st : DMState) :
    List (String × RoomInfo) :=
  match st.roomToUser with
  | none => []
  | some roomToUser =>
    ((roomToUser.map Prod.fst).filterMap (fun r =>
      match (getUserIdForRoomId env st r).1, env.getRoom r with
      | some u, some room =>
        if u ≠ "" ∧ room.getInvitedAndJoinedMemberCount = 2 then some (u, room)
        else none
      | _, _ => none)).foldl (fun obj p => jSet obj p.1 p.2) []

/-- The flattening performed by `getRoomIds`: concatenate every room list of
the raw Direct Map in insertion order. -/
def flattenVals (m : DirectMap) : List String :=
  m.foldl (fun acc p => acc ++ p.2) []

/-- `getRoomIds`: the de-duplicated collection of every room identifier
mentioned in the raw Direct Map (the JavaScript `Set`, in insertion order). -/
def getRoomIds (st : DMState) : List String :=
  uniqJS (flattenVals st.mDirectEvent)

/-- `start()`: eagerly build the Room→User index (the subscription itself is
modelled by the operation trace). -/
def startDMRoomMap (env : Client) (st : DMState) : DMState :=
  populateRoomToUser env st

/-- One externally triggered operation on the index. -/
inductive DMOp where
  | accountDataEvent (evType : String) (content : DirectMap)
  | roomsForUser (userId : String)
  | userForRoom (roomId : String)
  | roomForIdentifiers (ids : List String)
  | uniqueRooms
  | allRoomIds
  | startOp

/-- Apply one operation to the state; the client view is supplied per step so
that the surrounding session may change over time. -/
def applyOp (env : Client) (op : DMOp) (st : DMState) : DMState :=
  match op with
  | .accountDataEvent ty c => onAccountData st ty c
  | .roomsForUser u => (getDMRoomsForUserId env st u).2
  | .userForRoom r => (getUserIdForRoomId env st r).2
  | .roomForIdentifiers ids => (getDMRoomForIdentifiers env st ids).2
  | .uniqueRooms => st
  | .allRoomIds => st
  | .startOp => startDMRoomMap env st

/-- Run a trace of operations, each under its own client view. -/
def runOps (ops : List (Client × DMOp)) (st : DMState) : DMState :=
  ops.foldl (fun s p => applyOp p.1 p.2 s) st

/-- A raw account-data value as seen before any validation: either a list of
room identifiers or some non-list JSON value. -/
inductive JVal where
  | arr (rooms : List String) : JVal
  | nonList : JVal
deriving DecidableEq

/-- Whether a raw value is a list. -/
def JVal.isArr : JVal → Bool
  | .arr _ => true
  | .nonList => false

/-- A raw, untrusted Direct Map payload. -/
abbrev RawDirect := List (String × JVal)

/-- The constructor on raw content: `getAccountData(Direct)?.getContent() ?? empty`. -/
def rawDirectContent (acct : Option RawDirect) : RawDirect :=
  acct.getD []

/-- `getRoomIds` on a raw payload: `roomIds.forEach` over each stored value,
which raises a `TypeError` when the value is not a list. -/
def getRoomIdsRaw (m : RawDirect) : Except String (List String) :=
  m.foldlM (fun acc p =>
    match p.2 with
    | .arr rooms => Except.ok (acc ++ rooms)
    | .nonList => Except.error "TypeError: roomIds.forEach is not a function") []

/-- The intersection of a family of room lists, written after the words of the
spec for the common-room lookup: start from the first list and repeatedly keep
the candidates contained in the next list. -/
def specIntersect : List (List String) → List String
  | [] => []
  | l :: ls => ls.foldl (fun common l2 => common.filter (fun r => l2.contains r)) l

/-- The value the rebuild of User→Rooms produces from a stored Direct Map:
the repair result when the current user has a non-empty self list, the map
itself otherwise.  Derived from `getUserToRooms` for use in lemmas. -/
def rebuiltMap (env : Client) (m : DirectMap) : DirectMap :=
  if (jLookup m env.myUserId).getD [] ≠ [] then (patchUpSelfDMs env m).2 else m

theorem jLookup_isSome_eq_any {α : Type} (m : List (String × α)) (k : String) :
    (jLookup m k).isSome = m.any (fun p => p.1 == k) := by
  induction m with
  | nil => rfl
  | cons p m ih =>
    by_cases hp : (p.1 == k) = true
    · simp [jLookup, hp]
    · simp [jLookup, hp, ih]

theorem jLookup_map_update_self {α : Type} (m : List (String × α)) (k : String) (v : α)
    (h : m.any (fun p => p.1 == k) = true) :
    jLookup (m.map (fun p => if p.1 == k then (k, v) else p)) k = some v := by
  induction m with
  | nil => simp at h
  | cons p m ih =>
    cases hp : (p.1 == k) with
    | true => simp [jLookup, hp]
    | false =>
      have h2 : m.any (fun p => p.1 == k) = true := by
        simpa [List.any_cons, hp] using h
      simpa [jLookup, hp] using ih h2

theorem jLookup_append_single_self {α : Type} (m : List (String × α)) (k : String) (v : α)
    (h : jLookup m k = none) :
    jLookup (m ++ [(k, v)]) k = some v := by
  induction m with
  | nil => simp [jLookup]
  | cons p m ih =>
    cases hp : (p.1 == k) with
    | true => simp [jLookup, hp] at h
    | false =>
      simp only [jLookup, hp, Bool.false_eq_true, if_false] at h
      simpa [jLookup, hp] using ih h

theorem jLookup_jSet_self {α : Type} (m : List (String × α)) (k : String) (v : α) :
    jLookup (jSet m k v) k = some v := by
  unfold jSet
  by_cases h : m.any (fun p => p.1 == k) = true
  · rw [if_pos h]
    exact jLookup_map_update_self m k v h
  · rw [if_neg h]
    apply jLookup_append_single_self
    cases hval : jLookup m k with
    | none => rfl
    | some w =>
      exfalso
      apply h
      rw [← jLookup_isSome_eq_any, hval]
      rfl

theorem jLookup_map_update_ne {α : Type} (m : List (String × α)) (k k2 : String) (v : α)
    (h1 : (k == k2) = false) :
    jLookup (m.map (fun p => if p.1 == k then (k, v) else p)) k2 = jLookup m k2 := by
  induction m with
  | nil => rfl
  | cons p m ih =>
    cases hp : (p.1 == k) with
    | true =>
      have hpk : p.1 = k := by simpa using hp
      have hp2 : (p.1 == k2) = false := by rw [hpk]; exact h1
      simp only [List.map_cons, jLookup, hp, h1, hp2, Bool.false_eq_true,
        eq_self_iff_true, if_true, if_false]
      exact ih
    | false =>
      cases hq : (p.1 == k2) with
      | true => simp [jLookup, hp, hq]
      | false =>
        simp only [List.map_cons, jLookup, hp, hq, Bool.false_eq_true,
          eq_self_iff_true, if_true, if_false]
        exact ih

theorem jLookup_append_single_ne {α : Type} (m : List (String × α)) (k k2 : String) (v : α)
    (h1 : (k == k2) = false) :
    jLookup (m ++ [(k, v)]) k2 = jLookup m k2 := by
  induction m with
  | nil => simp [jLookup, h1]
  | cons p m ih =>
    cases hq : (p.1 == k2) with
    | true => simp [jLookup, hq]
    | false => simp [jLookup, hq, ih]

theorem jLookup_jSet_ne {α : Type} (m : List (String × α)) (k k2 : String) (v : α)
    (hne : k2 ≠ k) :
    jLookup (jSet m k v) k2 = jLookup m k2 := by
  have h1 : (k == k2) = false := by
    simp only [beq_eq_false_iff_ne, ne_eq]
    exact fun hk => hne hk.symm
  unfold jSet
  by_cases h : m.any (fun p => p.1 == k) = true
  · rw [if_pos h]
    exact jLookup_map_update_ne m k k2 v h1
  · rw [if_neg h]
    exact jLookup_append_single_ne m k k2 v h1

theorem mem_of_jLookup_eq_some {α : Type} (m : List (String × α)) (k : String) (v : α)
    (h : jLookup m k = some v) : (k, v) ∈ m := by
  induction m with
  | nil => simp [jLookup] at h
  | cons p m ih =>
    by_cases hp : (p.1 == k) = true
    · have hpk : p.1 = k := by simpa using hp
      simp only [jLookup, hp, if_pos, Option.some_inj] at h
      subst h
      rw [← hpk]
      exact List.mem_cons_self p m
    · simp only [jLookup, hp, if_neg, Bool.false_eq_true] at h
      exact List.mem_cons_of_mem p (ih h)

theorem jLookup_eq_some_of_mem_nodup {α : Type} (m : List (String × α)) (k : String) (v : α)
    (hnd : (m.map Prod.fst).Nodup) (hmem : (k, v) ∈ m) : jLookup m k = some v := by
  induction m with
  | nil => simp at hmem
  | cons p m ih =>
    simp only [List.map_cons, List.nodup_cons] at hnd
    rcases List.mem_cons.mp hmem with heq | hmem2
    · rw [← heq]
      simp [jLookup]
    · by_cases hp : (p.1 == k) = true
      · exfalso
        have hpk : p.1 = k := by simpa using hp
        apply hnd.1
        rw [hpk]
        exact List.mem_map.mpr ⟨(k, v), hmem2, rfl⟩
      · simp only [jLookup, hp, if_neg, Bool.false_eq_true]
        exact ih hnd.2 hmem2

theorem mem_foldl_uniq (l : List String) (acc : List String) (x : String) :
    x ∈ l.foldl (fun acc x => if x ∈ acc then acc else acc ++ [x]) acc ↔
      x ∈ acc ∨ x ∈ l := by
  induction l generalizing acc with
  | nil => simp
  | cons y l ih =>
    simp only [List.foldl_cons]
    rw [ih]
    by_cases hy : y ∈ acc
    · rw [if_pos hy]
      constructor
      · rintro (h | h)
        · exact Or.inl h
        · exact Or.inr (List.mem_cons_of_mem y h)
      · rintro (h | h)
        · exact Or.inl h
        · rcases List.mem_cons.mp h with rfl | h2
          · exact Or.inl hy
          · exact Or.inr h2
    · rw [if_neg hy]
      simp [List.mem_append, List.mem_cons, or_assoc]

theorem mem_uniqJS (l : List String) (x : String) : x ∈ uniqJS l ↔ x ∈ l := by
  unfold uniqJS
  rw [mem_foldl_uniq]
  simp

theorem nodup_foldl_uniq (l : List String) (acc : List String) (hacc : acc.Nodup) :
    (l.foldl (fun acc x => if x ∈ acc then acc else acc ++ [x]) acc).Nodup := by
  induction l generalizing acc with
  | nil => exact hacc
  | cons y l ih =>
    simp only [List.foldl_cons]
    by_cases hy : y ∈ acc
    · rw [if_pos hy]
      exact ih acc hacc
    · rw [if_neg hy]
      apply ih
      simp [List.nodup_append, hacc, hy]

theorem nodup_uniqJS (l : List String) : (uniqJS l).Nodup :=
  nodup_foldl_uniq l [] List.nodup_nil

theorem mem_flattenVals_foldl (m : DirectMap) (acc : List String) (x : String) :
    x ∈ m.foldl (fun acc p => acc ++ p.2) acc ↔ x ∈ acc ∨ ∃ p ∈ m, x ∈ p.2 := by
  induction m generalizing acc with
  | nil => simp
  | cons p m ih =>
    simp only [List.foldl_cons]
    rw [ih]
    simp only [List.mem_append, List.mem_cons]
    constructor
    · rintro ((h | h) | ⟨q, hq, hx⟩)
      · exact Or.inl h
      · exact Or.inr ⟨p, Or.inl rfl, h⟩
      · exact Or.inr ⟨q, Or.inr hq, hx⟩
    · rintro (h | ⟨q, hq | hq, hx⟩)
      · exact Or.inl (Or.inl h)
      · subst hq
        exact Or.inl (Or.inr hx)
      · exact Or.inr ⟨q, hq, hx⟩

theorem mem_flattenVals (m : DirectMap) (x : String) :
    x ∈ flattenVals m ↔ ∃ p ∈ m, x ∈ p.2 := by
  unfold flattenVals
  rw [mem_flattenVals_foldl]
  simp

theorem patchUpSelfDMs_eq_or_fst_true (env : Client) (m : DirectMap) :
    patchUpSelfDMs env m = (false, m) ∨ (patchUpSelfDMs env m).1 = true := by
  unfold patchUpSelfDMs
  cases hl : jLookup m env.myUserId with
  | none =>
    simp only [hl]
    exact Or.inl trivial
  | some selfRoomIds =>
    simp only [hl]
    split
    · exact Or.inl rfl
    · exact Or.inr rfl

theorem patchUpSelfDMs_snd_of_not_fst (env : Client) (m : DirectMap)
    (h : (patchUpSelfDMs env m).1 = false) : (patchUpSelfDMs env m).2 = m := by
  rcases patchUpSelfDMs_eq_or_fst_true env m with h2 | h2
  · rw [h2]
  · rw [h2] at h
    cases h

theorem getUserToRooms_cached (env : Client) (st : DMState) (m : DirectMap)
    (h : st.userToRooms = some m) : getUserToRooms env st = (m, st) := by
  unfold getUserToRooms
  rw [h]

theorem getUserToRooms_rebuild (env : Client) (st : DMState)
    (h : st.userToRooms = none) :
    (getUserToRooms env st).1 = rebuiltMap env st.mDirectEvent ∧
    (getUserToRooms env st).2.userToRooms = some (rebuiltMap env st.mDirectEvent) ∧
    (getUserToRooms env st).2.mDirectEvent = rebuiltMap env st.mDirectEvent ∧
    (getUserToRooms env st).2.roomToUser = st.roomToUser := by
  simp only [getUserToRooms, rebuiltMap, h]
  by_cases hc : (jLookup st.mDirectEvent env.myUserId).getD [] ≠ []
  · simp only [if_pos hc]
    cases hw : ((patchUpSelfDMs env st.mDirectEvent).1 &&
        ! st.hasSentOutPatchDirectAccountDataPatch) <;> simp
  · simp only [if_neg hc]
    simp

theorem getDMRoomsForUserId_fst (env : Client) (st : DMState) (u : String) :
    (getDMRoomsForUserId env st u).1 = (jLookup (getUserToRooms env st).1 u).getD [] :=
  rfl

theorem getUserIdForRoomId_fresh (env : Client) (st : DMState) (r : String)
    (h : st.roomToUser = none) :
    (getUserIdForRoomId env st r).1 =
      roomToUserResult env (buildRoomToUser (getUserToRooms env st).1) r := by
  simp only [getUserIdForRoomId, h]
  rfl

theorem getUserIdForRoomId_built (env : Client) (st : DMState) (r : String)
    (rtu : List (String × String)) (h : st.roomToUser = some rtu) :
    getUserIdForRoomId env st r = (roomToUserResult env rtu r, st) := by
  simp only [getUserIdForRoomId, h]
  rfl

theorem patch_fst_true_imp_self_nonempty (env : Client) (m : DirectMap)
    (h : (patchUpSelfDMs env m).1 = true) :
    (jLookup m env.myUserId).getD [] ≠ [] := by
  unfold patchUpSelfDMs at h
  cases hl : jLookup m env.myUserId with
  | none =>
    simp only [hl] at h
    cases h
  | some selfRoomIds =>
    simp only [hl] at h
    split at h
    · cases h
    · rename_i hg
      simp only [Option.getD_some]
      intro hnil
      subst hnil
      simp at hg

/-- C3: the rooms-for-user query returns the list held for the user by the
repaired User→Rooms index, in order, and the empty list with no entry; on a
Direct Map with no self-referential entry the repair is the identity, so the
query on a fresh index returns exactly the configured list. -/
theorem roomsForUser_returns_configured (env : Client) (st : DMState)
    (m : DirectMap) (u : String) (hself : jLookup m env.myUserId = none) :
    (getDMRoomsForUserId env st u).1 = (jLookup (getUserToRooms env st).1 u).getD [] ∧
    (getDMRoomsForUserId env (initState (some m)) u).1 = (jLookup m u).getD [] := by
  refine ⟨rfl, ?_⟩
  have hr := getUserToRooms_rebuild env (initState (some m)) rfl
  rw [getDMRoomsForUserId_fst, hr.1]
  show (jLookup (rebuiltMap env m) u).getD [] = (jLookup m u).getD []
  unfold rebuiltMap
  rw [hself]
  simp

/-- C3 witness: a concrete two-room configuration is returned verbatim. -/
theorem roomsForUser_returns_configured_witness :
    (getDMRoomsForUserId { myUserId := "@me:x", getRoom := fun _ => none }
      (initState (some [("@a:x", ["!r1:x", "!r2:x"])])) "@a:x").1 =
      ["!r1:x", "!r2:x"] := by
  have h := roomsForUser_returns_configured
    { myUserId := "@me:x", getRoom := fun _ => none }
    (initState (some [("@a:x", ["!r1:x", "!r2:x"])]))
    [("@a:x", ["!r1:x", "!r2:x"])] "@a:x" (by decide)
  rw [h.2]
  decide

/-- C5: after a change notification of the Direct Map event type carrying a
new map, the rooms-for-user and user-for-room queries give exactly the
results of a freshly built index over the new map, for any prior state of
the derived indexes. -/
theorem change_notification_invalidates (env : Client) (st : DMState)
    (m : DirectMap) (u r : String) :
    (getDMRoomsForUserId env (onAccountData st EventTypeDirect m) u).1 =
      (getDMRoomsForUserId env (initState (some m)) u).1 ∧
    (getUserIdForRoomId env (onAccountData st EventTypeDirect m) r).1 =
      (getUserIdForRoomId env (initState (some m)) r).1 := by
  have h1 : onAccountData st EventTypeDirect m =
      { st with mDirectEvent := m, userToRooms := none, roomToUser := none } := by
    simp [onAccountData]
  rw [h1]
  have hA := getUserToRooms_rebuild env
    { st with mDirectEvent := m, userToRooms := none, roomToUser := none } rfl
  have hB := getUserToRooms_rebuild env (initState (some m)) rfl
  constructor
  · rw [getDMRoomsForUserId_fst, getDMRoomsForUserId_fst, hA.1, hB.1]
    rfl
  · rw [getUserIdForRoomId_fresh env _ r rfl, getUserIdForRoomId_fresh env _ r rfl,
      hA.1, hB.1]
    rfl

/-- C8 counterexample: with the current user holding one self-listed room for
which no room object exists, the repair pass finds nothing to fix and the map
is untouched with no write-back, yet the diagnostic record is still
emitted (the logger counter moves from zero to one), contradicting the
claimed silence. -/
theorem silent_noop_cex :
    (patchUpSelfDMs { myUserId := "@me:x", getRoom := fun _ => none }
      [("@me:x", ["!r:x"])]).1 = false ∧
    ((getUserToRooms { myUserId := "@me:x", getRoom := fun _ => none }
      (initState (some [("@me:x", ["!r:x"])]))).2.mDirectEvent =
        [("@me:x", ["!r:x"])]) ∧
    ((getUserToRooms { myUserId := "@me:x", getRoom := fun _ => none }
      (initState (some [("@me:x", ["!r:x"])]))).2.setAccountDataCalls = 0) ∧
    ((getUserToRooms { myUserId := "@me:x", getRoom := fun _ => none }
      (initState (some [("@me:x", ["!r:x"])]))).2.loggerWarnCalls = 1) := by
  decide

/-- C8 amended: when a rebuild finds nothing to reassign, the map is left
untouched and no write-back is attempted, but the diagnostic record is
emitted whenever the current user has a non-empty self list. -/
theorem silent_noop_amended (env : Client) (st : DMState)
    (h1 : st.userToRooms = none)
    (h2 : (patchUpSelfDMs env st.mDirectEvent).1 = false) :
    ((getUserToRooms env st).2.mDirectEvent = st.mDirectEvent) ∧
    ((getUserToRooms env st).2.userToRooms = some st.mDirectEvent) ∧
    ((getUserToRooms env st).2.setAccountDataCalls = st.setAccountDataCalls) ∧
    ((getUserToRooms env st).2.loggerWarnCalls = st.loggerWarnCalls +
      (if (jLookup st.mDirectEvent env.myUserId).getD [] ≠ [] then 1 else 0)) := by
  have hsnd := patchUpSelfDMs_snd_of_not_fst env st.mDirectEvent h2
  simp only [getUserToRooms, h1]
  by_cases hc : (jLookup st.mDirectEvent env.myUserId).getD [] ≠ []
  · simp only [if_pos hc, h2, Bool.false_and, Bool.false_eq_true, if_false]
    simp [hsnd]
  · simp only [if_neg hc]
    simp [hc]

/-- C8 amended witness: the silent-but-logged no-op at the concrete input of
the counterexample. -/
theorem silent_noop_amended_witness :
    ((getUserToRooms { myUserId := "@me:x", getRoom := fun _ => none }
        (initState (some [("@me:x", ["!r:x"])]))).2.mDirectEvent =
      (initState (some [("@me:x", ["!r:x"])])).mDirectEvent) ∧
    ((getUserToRooms { myUserId := "@me:x", getRoom := fun _ => none }
        (initState (some [("@me:x", ["!r:x"])]))).2.userToRooms =
      some (initState (some [("@me:x", ["!r:x"])])).mDirectEvent) ∧
    ((getUserToRooms { myUserId := "@me:x", getRoom := fun _ => none }
        (initState (some [("@me:x", ["!r:x"])]))).2.setAccountDataCalls =
      (initState (some [("@me:x", ["!r:x"])])).setAccountDataCalls) ∧
    ((getUserToRooms { myUserId := "@me:x", getRoom := fun _ => none }
        (initState (some [("@me:x", ["!r:x"])]))).2.loggerWarnCalls =
      (initState (some [("@me:x", ["!r:x"])])).loggerWarnCalls +
        (if (jLookup (initState (some [("@me:x", ["!r:x"])])).mDirectEvent
              "@me:x").getD [] ≠ [] then 1 else 0)) :=
  silent_noop_amended { myUserId := "@me:x", getRoom := fun _ => none }
    (initState (some [("@me:x", ["!r:x"])])) rfl (by decide)

theorem foldlM_roomIds_ok (m : RawDirect) (acc : List String)
    (h : ∀ p ∈ m, p.2.isArr = true) :
    ∃ l, (m.foldlM (fun acc p =>
      match p.2 with
      | JVal.arr rooms => Except.ok (acc ++ rooms)
      | JVal.nonList =>
        Except.error "TypeError: roomIds.forEach is not a function") acc :
        Except String (List String)) = Except.ok l := by
  induction m generalizing acc with
  | nil => exact ⟨acc, rfl⟩
  | cons p m ih =>
    cases hp : p.2 with
    | arr rooms =>
      have h2 : ∀ q ∈ m, q.2.isArr = true :=
        fun q hq => h q (List.mem_cons_of_mem p hq)
      simp only [List.foldlM_cons, hp]
      exact ih (acc ++ rooms) h2
    | nonList =>
      exfalso
      have := h p (List.mem_cons_self p m)
      rw [hp] at this
      cases this

/-- C9 amended: construction with absent account data yields the empty map,
and the all-room-identifiers query completes without raising exactly on maps
whose values are all lists; a non-list value is not treated as empty but
makes the query raise. -/
theorem raw_payload_spec (m : RawDirect) (h : ∀ p ∈ m, p.2.isArr = true) :
    rawDirectContent none = [] ∧ ∃ l, getRoomIdsRaw m = Except.ok l := by
  refine ⟨rfl, ?_⟩
  unfold getRoomIdsRaw
  exact foldlM_roomIds_ok m [] h

/-- C9 amended witness: a well-formed one-entry payload is flattened without
raising. -/
theorem raw_payload_spec_witness :
    rawDirectContent none = [] ∧
    ∃ l, getRoomIdsRaw [("@u:x", JVal.arr ["!r:x"])] = Except.ok l :=
  raw_payload_spec [("@u:x", JVal.arr ["!r:x"])] (by decide)

theorem getUserToRooms_calls_flag (env : Client) (st : DMState)
    (h : st.setAccountDataCalls =
      (if st.hasSentOutPatchDirectAccountDataPatch then 1 else 0)) :
    (getUserToRooms env st).2.setAccountDataCalls =
      (if (getUserToRooms env st).2.hasSentOutPatchDirectAccountDataPatch
        then 1 else 0) := by
  cases hu : st.userToRooms with
  | some m =>
    rw [getUserToRooms_cached env st m hu]
    exact h
  | none =>
    simp only [getUserToRooms, hu]
    by_cases hc : (jLookup st.mDirectEvent env.myUserId).getD [] ≠ []
    · simp only [if_pos hc]
      cases hw : ((patchUpSelfDMs env st.mDirectEvent).1 &&
          ! st.hasSentOutPatchDirectAccountDataPatch) with
      | true =>
        have hflag : st.hasSentOutPatchDirectAccountDataPatch = false := by
          have hw2 := hw
          simp only [Bool.and_eq_true] at hw2
          simpa using hw2.2
        rw [hflag] at h
        simp at h
        simp [h]
      | false =>
        simp only [Bool.false_eq_true, if_false]
        simpa using h
    · simp only [if_neg hc]
      simpa using h

theorem applyOp_calls_flag (env : Client) (op : DMOp) (st : DMState)
    (h : st.setAccountDataCalls =
      (if st.hasSentOutPatchDirectAccountDataPatch then 1 else 0)) :
    (applyOp env op st).setAccountDataCalls =
      (if (applyOp env op st).hasSentOutPatchDirectAccountDataPatch
        then 1 else 0) := by
  cases op with
  | accountDataEvent ty c =>
    simp only [applyOp, onAccountData]
    split
    · simpa using h
    · exact h
  | roomsForUser u => exact getUserToRooms_calls_flag env st h
  | userForRoom r =>
    cases hr : st.roomToUser with
    | none =>
      have h2 := getUserToRooms_calls_flag env st h
      simp only [applyOp, getUserIdForRoomId, hr]
      simpa [populateRoomToUser] using h2
    | some rtu =>
      simp only [applyOp, getUserIdForRoomId, hr]
      exact h
  | roomForIdentifiers ids => exact getUserToRooms_calls_flag env st h
  | uniqueRooms => exact h
  | allRoomIds => exact h
  | startOp =>
    have h2 := getUserToRooms_calls_flag env st h
    simpa [applyOp, startDMRoomMap, populateRoomToUser] using h2

theorem runOps_calls_flag (ops : List (Client × DMOp)) (st : DMState)
    (h : st.setAccountDataCalls =
      (if st.hasSentOutPatchDirectAccountDataPatch then 1 else 0)) :
    (runOps ops st).setAccountDataCalls =
      (if (runOps ops st).hasSentOutPatchDirectAccountDataPatch then 1 else 0) := by
  induction ops generalizing st with
  | nil => exact h
  | cons p ops ih =>
    have h2 := ih (applyOp p.1 p.2 st) (applyOp_calls_flag p.1 p.2 st h)
    simp only [runOps, List.foldl_cons] at h2 ⊢
    exact h2

/-- C2: across any trace of operations from a fresh index, at most one
account-data write-back is ever attempted; and a rebuild that applies a
reassignment while the correction flag is clear sets the flag and performs
exactly one write attempt. -/
theorem writeback_at_most_once (content : Option DirectMap)
    (ops : List (Client × DMOp)) (env : Client) (st : DMState)
    (h1 : st.userToRooms = none)
    (h2 : st.hasSentOutPatchDirectAccountDataPatch = false)
    (h3 : (patchUpSelfDMs env st.mDirectEvent).1 = true) :
    (runOps ops (initState content)).setAccountDataCalls ≤ 1 ∧
    ((getUserToRooms env st).2.setAccountDataCalls = st.setAccountDataCalls + 1 ∧
     (getUserToRooms env st).2.hasSentOutPatchDirectAccountDataPatch = true) := by
  constructor
  · have hrun := runOps_calls_flag ops (initState content) rfl
    rw [hrun]
    split <;> simp
  · have hc := patch_fst_true_imp_self_nonempty env st.mDirectEvent h3
    simp only [getUserToRooms, h1, if_pos hc]
    have hw : ((patchUpSelfDMs env st.mDirectEvent).1 &&
        ! st.hasSentOutPatchDirectAccountDataPatch) = true := by
      rw [h3, h2]
      rfl
    simp [hw]

/-- C2 witness: the bound holds on the empty trace, and a concrete anomaly
(one self-listed room whose guessed counterpart differs) triggers exactly one
write attempt and sets the flag. -/
theorem writeback_at_most_once_witness :
    (runOps [] (initState none)).setAccountDataCalls ≤ 1 ∧
    ((getUserToRooms
        { myUserId := "@me:x",
          getRoom := fun r => if r == "!r:x" then
            some { roomId := "!r:x", guessDMUserId := "@other:x",
                   getDMInviter := none, getMyMembership := "join",
                   getInvitedAndJoinedMemberCount := 2 }
            else none }
        (initState (some [("@me:x", ["!r:x"])]))).2.setAccountDataCalls =
      (initState (some [("@me:x", ["!r:x"])])).setAccountDataCalls + 1 ∧
     ((getUserToRooms
        { myUserId := "@me:x",
          getRoom := fun r => if r == "!r:x" then
            some { roomId := "!r:x", guessDMUserId := "@other:x",
                   getDMInviter := none, getMyMembership := "join",
                   getInvitedAndJoinedMemberCount := 2 }
            else none }
        (initState
          (some [("@me:x", ["!r:x"])]))).2).hasSentOutPatchDirectAccountDataPatch =
       true) :=
  writeback_at_most_once none []
    { myUserId := "@me:x",
      getRoom := fun r => if r == "!r:x" then
        some { roomId := "!r:x", guessDMUserId := "@other:x",
               getDMInviter := none, getMyMembership := "join",
               getInvitedAndJoinedMemberCount := 2 }
        else none }
    (initState (some [("@me:x", ["!r:x"])])) rfl rfl (by decide)

theorem filter_map_join_head (env : Client) (l : List String) :
    (((l.map env.getRoom).filter
      (fun o => o.elim false (fun room => room.getMyMembership == "join"))).head?).join =
    ((l.filterMap env.getRoom).filter
      (fun room => room.getMyMembership == "join")).head? := by
  induction l with
  | nil => rfl
  | cons r l ih =>
    cases hr : env.getRoom r with
    | none => simpa [hr] using ih
    | some room =>
      cases hm : (room.getMyMembership == "join") with
      | true => simp [hr, hm]
      | false => simpa [hr, hm] using ih

/-- C6: for a non-empty identifier list, the common-room query returns the
head of the intersection of the per-identifier room lists restricted to
candidates whose room object exists with membership join; equivalently it
returns nothing exactly when no candidate of the intersection is joined. -/
theorem common_room_lookup (env : Client) (st : DMState) (ids : List String)
    (h : ids ≠ []) :
    (getDMRoomForIdentifiers env st ids).1 =
      (((specIntersect (ids.map (fun i =>
          (jLookup (getUserToRooms env st).1 i).getD []))).filterMap
            env.getRoom).filter
        (fun room => room.getMyMembership == "join")).head? ∧
    ((getDMRoomForIdentifiers env st ids).1 = none ↔
      ∀ r ∈ specIntersect (ids.map (fun i =>
          (jLookup (getUserToRooms env st).1 i).getD [])),
        ∀ room, env.getRoom r = some room → ¬ room.getMyMembership = "join") := by
  have key : (getDMRoomForIdentifiers env st ids).1 =
      (((specIntersect (ids.map (fun i =>
          (jLookup (getUserToRooms env st).1 i).getD []))).filterMap
            env.getRoom).filter
        (fun room => room.getMyMembership == "join")).head? := by
    cases ids with
    | nil => exact absurd rfl h
    | cons i rest =>
      simp only [getDMRoomForIdentifiers, specIntersect, List.map_cons,
        List.drop_succ_cons, List.drop_zero, List.foldl_map]
      exact filter_map_join_head env _
  refine ⟨key, ?_⟩
  rw [key, List.head?_eq_none_iff, List.filter_eq_nil_iff]
  constructor
  · intro hall r hr room hroom hj
    have h2 := hall room (List.mem_filterMap.mpr ⟨r, hr, hroom⟩)
    rw [hj] at h2
    simp at h2
  · intro hall room hmem
    rcases List.mem_filterMap.mp hmem with ⟨r, hr, hroom⟩
    have h2 := hall r hr room hroom
    simpa using h2

/-- C6 witness: with rooms for the first user being r1 and r2, rooms for the
second r2 and r3, and r2 the only joined room, the query returns r2. -/
theorem common_room_lookup_witness :
    (getDMRoomForIdentifiers
      { myUserId := "@me:x",
        getRoom := fun r =>
          if r == "!r2:x" then
            some { roomId := "!r2:x", guessDMUserId := "", getDMInviter := none,
                   getMyMembership := "join", getInvitedAndJoinedMemberCount := 2 }
          else if r == "!r1:x" then
            some { roomId := "!r1:x", guessDMUserId := "", getDMInviter := none,
                   getMyMembership := "leave", getInvitedAndJoinedMemberCount := 2 }
          else if r == "!r3:x" then
            some { roomId := "!r3:x", guessDMUserId := "", getDMInviter := none,
                   getMyMembership := "leave", getInvitedAndJoinedMemberCount := 2 }
          else none }
      (initState (some [("@a:x", ["!r1:x", "!r2:x"]), ("@b:x", ["!r2:x", "!r3:x"])]))
      ["@a:x", "@b:x"]).1 =
      some { roomId := "!r2:x", guessDMUserId := "", getDMInviter := none,
             getMyMembership := "join", getInvitedAndJoinedMemberCount := 2 } := by
  have h := common_room_lookup
    { myUserId := "@me:x",
      getRoom := fun r =>
        if r == "!r2:x" then
          some { roomId := "!r2:x", guessDMUserId := "", getDMInviter := none,
                 getMyMembership := "join", getInvitedAndJoinedMemberCount := 2 }
        else if r == "!r1:x" then
          some { roomId := "!r1:x", guessDMUserId := "", getDMInviter := none,
                 getMyMembership := "leave", getInvitedAndJoinedMemberCount := 2 }
        else if r == "!r3:x" then
          some { roomId := "!r3:x", guessDMUserId := "", getDMInviter := none,
                 getMyMembership := "leave", getInvitedAndJoinedMemberCount := 2 }
        else none }
    (initState (some [("@a:x", ["!r1:x", "!r2:x"]), ("@b:x", ["!r2:x", "!r3:x"])]))
    ["@a:x", "@b:x"] (by decide)
  rw [h.1]
  decide

theorem mem_jSet {α : Type} (m : List (String × α)) (k : String) (v : α)
    (p : String × α) (h : p ∈ jSet m k v) : p = (k, v) ∨ p ∈ m := by
  unfold jSet at h
  by_cases ha : m.any (fun q => q.1 == k) = true
  · rw [if_pos ha] at h
    rcases List.mem_map.mp h with ⟨q, hq, heq⟩
    by_cases hqk : (q.1 == k) = true
    · rw [if_pos hqk] at heq
      exact Or.inl heq.symm
    · rw [if_neg hqk] at heq
      subst heq
      exact Or.inr hq
  · rw [if_neg ha] at h
    rcases List.mem_append.mp h with h2 | h2
    · exact Or.inr h2
    · exact Or.inl (List.mem_singleton.mp h2)

theorem mem_foldl_jSet {α : Type} (entries : List (String × α))
    (acc : List (String × α)) (p : String × α)
    (h : p ∈ entries.foldl (fun obj q => jSet obj q.1 q.2) acc) :
    p ∈ entries ∨ p ∈ acc := by
  induction entries generalizing acc with
  | nil => exact Or.inr h
  | cons q entries ih =>
    simp only [List.foldl_cons] at h
    rcases ih (jSet acc q.1 q.2) h with h2 | h2
    · exact Or.inl (List.mem_cons_of_mem q h2)
    · rcases mem_jSet acc q.1 q.2 p h2 with h3 | h3
      · rw [h3]
        exact Or.inl (List.mem_cons_self _ _)
      · exact Or.inr h3

/-- C7 counterexample: with one user owning two rooms, both of which exist
with exactly two joined-or-invited members, both rooms sit in the Room→User
index and both qualify, yet the returned user-keyed mapping holds only the
later room: it does not contain exactly the qualifying rooms. -/
theorem unique_rooms_cex :
    ((getUniqueRoomsWithIndividuals
      { myUserId := "@me:x",
        getRoom := fun r =>
          if r == "!r1:x" then
            some { roomId := "!r1:x", guessDMUserId := "", getDMInviter := none,
                   getMyMembership := "join", getInvitedAndJoinedMemberCount := 2 }
          else if r == "!r2:x" then
            some { roomId := "!r2:x", guessDMUserId := "", getDMInviter := none,
                   getMyMembership := "join", getInvitedAndJoinedMemberCount := 2 }
          else none }
      (startDMRoomMap
        { myUserId := "@me:x",
          getRoom := fun r =>
            if r == "!r1:x" then
              some { roomId := "!r1:x", guessDMUserId := "", getDMInviter := none,
                     getMyMembership := "join", getInvitedAndJoinedMemberCount := 2 }
            else if r == "!r2:x" then
              some { roomId := "!r2:x", guessDMUserId := "", getDMInviter := none,
                     getMyMembership := "join", getInvitedAndJoinedMemberCount := 2 }
            else none }
        (initState (some [("@a:x", ["!r1:x", "!r2:x"])])))).map
        (fun p => p.2.roomId) = ["!r2:x"]) ∧
    jLookup ((startDMRoomMap
        { myUserId := "@me:x",
          getRoom := fun r =>
            if r == "!r1:x" then
              some { roomId := "!r1:x", guessDMUserId := "", getDMInviter := none,
                     getMyMembership := "join", getInvitedAndJoinedMemberCount := 2 }
            else if r == "!r2:x" then
              some { roomId := "!r2:x", guessDMUserId := "", getDMInviter := none,
                     getMyMembership := "join", getInvitedAndJoinedMemberCount := 2 }
            else none }
        (initState (some [("@a:x", ["!r1:x", "!r2:x"])]))).roomToUser.getD [])
      "!r1:x" = some "@a:x" ∧
    (({ myUserId := "@me:x",
        getRoom := fun r =>
          if r == "!r1:x" then
            some { roomId := "!r1:x", guessDMUserId := "", getDMInviter := none,
                   getMyMembership := "join", getInvitedAndJoinedMemberCount := 2 }
          else if r == "!r2:x" then
            some { roomId := "!r2:x", guessDMUserId := "", getDMInviter := none,
                   getMyMembership := "join", getInvitedAndJoinedMemberCount := 2 }
          else none } : Client).getRoom "!r1:x").map
      (fun r => r.getInvitedAndJoinedMemberCount) = some 2 := by
  decide

/-- C7 amended: the unique-1:1 mapping holds only rooms of the Room→User
index whose room object exists with exactly two joined-or-invited members
and a truthy mapped user (per user, the last such room in index order), and
an unbuilt Room→User index yields the empty mapping without building it. -/
theorem unique_rooms_only_qualifying (env : Client) (st : DMState) :
    (st.roomToUser = none → getUniqueRoomsWithIndividuals env st = []) ∧
    ∀ p ∈ getUniqueRoomsWithIndividuals env st,
      ∃ rid ∈ (st.roomToUser.getD []).map Prod.fst,
        (getUserIdForRoomId env st rid).1 = some p.1 ∧
        env.getRoom rid = some p.2 ∧
        p.1 ≠ "" ∧
        p.2.getInvitedAndJoinedMemberCount = 2 := by
  constructor
  · intro h
    simp [getUniqueRoomsWithIndividuals, h]
  · intro p hp
    cases hrtu : st.roomToUser with
    | none =>
      simp [getUniqueRoomsWithIndividuals, hrtu] at hp
    | some rtu =>
      simp only [getUniqueRoomsWithIndividuals, hrtu] at hp
      rcases mem_foldl_jSet _ [] p hp with h2 | h2
      · rcases List.mem_filterMap.mp h2 with ⟨rid, hrid, hf⟩
        refine ⟨rid, by simpa [hrtu] using hrid, ?_⟩
        cases hu : (getUserIdForRoomId env st rid).1 with
        | none => simp [hu] at hf
        | some u =>
          cases hr : env.getRoom rid with
          | none => simp [hu, hr] at hf
          | some room =>
            simp only [hu, hr] at hf
            by_cases hcond : u ≠ "" ∧ room.getInvitedAndJoinedMemberCount = 2
            · rw [if_pos hcond] at hf
              have hp2 : p = (u, room) := by
                have := Option.some.inj hf
                exact this.symm
              subst hp2
              exact ⟨rfl, rfl, hcond.1, hcond.2⟩
            · rw [if_neg hcond] at hf
              cases hf
      · simp at h2

/-- C7 amended witness: in the counterexample configuration, the entry the
mapping does hold is a qualifying room of the index. -/
theorem unique_rooms_only_qualifying_witness :
    ∃ rid ∈ (((startDMRoomMap
        { myUserId := "@me:x",
          getRoom := fun r =>
            if r == "!r1:x" then
              some { roomId := "!r1:x", guessDMUserId := "", getDMInviter := none,
                     getMyMembership := "join", getInvitedAndJoinedMemberCount := 2 }
            else if r == "!r2:x" then
              some { roomId := "!r2:x", guessDMUserId := "", getDMInviter := none,
                     getMyMembership := "join", getInvitedAndJoinedMemberCount := 2 }
            else none }
        (initState (some [("@a:x", ["!r1:x", "!r2:x"])]))).roomToUser.getD
          []).map Prod.fst),
      (getUserIdForRoomId
        { myUserId := "@me:x",
          getRoom := fun r =>
            if r == "!r1:x" then
              some { roomId := "!r1:x", guessDMUserId := "", getDMInviter := none,
                     getMyMembership := "join", getInvitedAndJoinedMemberCount := 2 }
            else if r == "!r2:x" then
              some { roomId := "!r2:x", guessDMUserId := "", getDMInviter := none,
                     getMyMembership := "join", getInvitedAndJoinedMemberCount := 2 }
            else none }
        (startDMRoomMap
          { myUserId := "@me:x",
            getRoom := fun r =>
              if r == "!r1:x" then
                some { roomId := "!r1:x", guessDMUserId := "", getDMInviter := none,
                       getMyMembership := "join", getInvitedAndJoinedMemberCount := 2 }
              else if r == "!r2:x" then
                some { roomId := "!r2:x", guessDMUserId := "", getDMInviter := none,
                       getMyMembership := "join", getInvitedAndJoinedMemberCount := 2 }
              else none }
          (initState (some [("@a:x", ["!r1:x", "!r2:x"])]))) rid).1 =
        some "@a:x" ∧
      ({ myUserId := "@me:x",
         getRoom := fun r =>
           if r == "!r1:x" then
             some { roomId := "!r1:x", guessDMUserId := "", getDMInviter := none,
                    getMyMembership := "join", getInvitedAndJoinedMemberCount := 2 }
           else if r == "!r2:x" then
             some { roomId := "!r2:x", guessDMUserId := "", getDMInviter := none,
                    getMyMembership := "join", getInvitedAndJoinedMemberCount := 2 }
           else none } : Client).getRoom rid =
        some { roomId := "!r2:x", guessDMUserId := "", getDMInviter := none,
               getMyMembership := "join", getInvitedAndJoinedMemberCount := 2 } ∧
      ("@a:x" : String) ≠ "" ∧
      ({ roomId := "!r2:x", guessDMUserId := "", getDMInviter := none,
         getMyMembership := "join",
         getInvitedAndJoinedMemberCount := 2 } :
           RoomInfo).getInvitedAndJoinedMemberCount = 2 :=
  (unique_rooms_only_qualifying
    { myUserId := "@me:x",
      getRoom := fun r =>
        if r == "!r1:x" then
          some { roomId := "!r1:x", guessDMUserId := "", getDMInviter := none,
                 getMyMembership := "join", getInvitedAndJoinedMemberCount := 2 }
        else if r == "!r2:x" then
          some { roomId := "!r2:x", guessDMUserId := "", getDMInviter := none,
                 getMyMembership := "join", getInvitedAndJoinedMemberCount := 2 }
        else none }
    (startDMRoomMap
      { myUserId := "@me:x",
        getRoom := fun r =>
          if r == "!r1:x" then
            some { roomId := "!r1:x", guessDMUserId := "", getDMInviter := none,
                   getMyMembership := "join", getInvitedAndJoinedMemberCount := 2 }
          else if r == "!r2:x" then
            some { roomId := "!r2:x", guessDMUserId := "", getDMInviter := none,
                   getMyMembership := "join", getInvitedAndJoinedMemberCount := 2 }
          else none }
      (initState (some [("@a:x", ["!r1:x", "!r2:x"])])))).2
    ("@a:x",
      { roomId := "!r2:x", guessDMUserId := "", getDMInviter := none,
        getMyMembership := "join", getInvitedAndJoinedMemberCount := 2 })
    (by decide)

theorem jLookup_inner_fold (l : List String) (u : String)
    (acc : List (String × String)) (x : String) :
    jLookup (l.foldl (fun a rid => jSet a rid u) acc) x =
      if x ∈ l then some u else jLookup acc x := by
  induction l generalizing acc with
  | nil => simp
  | cons rid l ih =>
    simp only [List.foldl_cons]
    rw [ih]
    by_cases hx : x ∈ l
    · simp [hx, List.mem_cons]
    · rw [if_neg hx]
      by_cases hrid : x = rid
      · subst hrid
        rw [jLookup_jSet_self]
        simp [List.mem_cons]
      · rw [jLookup_jSet_ne acc rid x u hrid]
        have hnot : ¬ x ∈ rid :: l := by simp [hrid, hx]
        rw [if_neg hnot]

theorem jLookup_outer_fold_untouched (m : DirectMap)
    (acc : List (String × String)) (x : String)
    (h : ∀ q ∈ m, x ∉ q.2) :
    jLookup (m.foldl (fun acc p => p.2.foldl (fun a rid => jSet a rid p.1) acc) acc) x
      = jLookup acc x := by
  induction m generalizing acc with
  | nil => rfl
  | cons p m ih =>
    simp only [List.foldl_cons]
    rw [ih _ (fun q hq => h q (List.mem_cons_of_mem p hq))]
    rw [jLookup_inner_fold]
    rw [if_neg (h p (List.mem_cons_self p m))]

theorem jLookup_outer_fold_owner (m : DirectMap)
    (acc : List (String × String)) (x U : String)
    (hex : ∃ q ∈ m, x ∈ q.2)
    (huni : ∀ q ∈ m, x ∈ q.2 → q.1 = U) :
    jLookup (m.foldl (fun acc p => p.2.foldl (fun a rid => jSet a rid p.1) acc) acc) x
      = some U := by
  induction m generalizing acc with
  | nil =>
    rcases hex with ⟨q, hq, _⟩
    simp at hq
  | cons p m ih =>
    simp only [List.foldl_cons]
    by_cases hm : ∃ q ∈ m, x ∈ q.2
    · exact ih _ hm (fun q hq hx2 => huni q (List.mem_cons_of_mem p hq) hx2)
    · push_neg at hm
      rw [jLookup_outer_fold_untouched m _ x hm]
      rw [jLookup_inner_fold]
      have hxp : x ∈ p.2 := by
        rcases hex with ⟨q, hq, hx⟩
        rcases List.mem_cons.mp hq with rfl | hq2
        · exact hx
        · exact absurd hx (hm q hq2)
      rw [if_pos hxp]
      exact congrArg some (huni p (List.mem_cons_self p m) hxp)

/-- C4 counterexample: in a Direct Map without self-referential entries where
the same room is listed under two different users, the Room→User inversion is
last-writer-wins, so the round trip from the first user fails. -/
theorem room_user_roundtrip_cex :
    "!r:x" ∈ (getDMRoomsForUserId { myUserId := "@me:x", getRoom := fun _ => none }
      (initState (some [("@a:x", ["!r:x"]), ("@b:x", ["!r:x"])])) "@a:x").1 ∧
    (getUserIdForRoomId { myUserId := "@me:x", getRoom := fun _ => none }
      (initState (some [("@a:x", ["!r:x"]), ("@b:x", ["!r:x"])])) "!r:x").1 =
      some "@b:x" ∧
    jLookup [("@a:x", ["!r:x"]), ("@b:x", ["!r:x"])] "@me:x" = none ∧
    ("@b:x" : String) ≠ "@a:x" := by
  decide

/-- C4 amended: on a Direct Map with no self-referential entries in which no
room is listed under two different users, every room listed in
rooms-for-user(U) maps back to U under the user-for-room query. -/
theorem room_user_roundtrip (env : Client) (m : DirectMap) (U R : String)
    (hself : jLookup m env.myUserId = none)
    (huniq : ∀ p1 ∈ m, ∀ p2 ∈ m, ∀ r ∈ p1.2, r ∈ p2.2 → p1.1 = p2.1)
    (hR : R ∈ (getDMRoomsForUserId env (initState (some m)) U).1) :
    (getUserIdForRoomId env (initState (some m)) R).1 = some U := by
  have hreb : rebuiltMap env m = m := by
    unfold rebuiltMap
    rw [hself]
    simp
  have hr := getUserToRooms_rebuild env (initState (some m)) rfl
  rw [getDMRoomsForUserId_fst, hr.1] at hR
  have hR2 : R ∈ (jLookup m U).getD [] := by
    rw [← hreb]
    exact hR
  obtain ⟨l, hl, hRl⟩ : ∃ l, jLookup m U = some l ∧ R ∈ l := by
    cases hlu : jLookup m U with
    | none =>
      rw [hlu] at hR2
      simp at hR2
    | some l =>
      rw [hlu] at hR2
      exact ⟨l, rfl, hR2⟩
  have hmem := mem_of_jLookup_eq_some m U l hl
  have hbr : jLookup (buildRoomToUser m) R = some U := by
    unfold buildRoomToUser
    apply jLookup_outer_fold_owner
    · exact ⟨(U, l), hmem, hRl⟩
    · intro q hq hx
      exact huniq q hq (U, l) hmem R hx hRl
  rw [getUserIdForRoomId_fresh env _ R rfl, hr.1]
  show roomToUserResult env (buildRoomToUser (rebuiltMap env m)) R = some U
  rw [hreb]
  unfold roomToUserResult
  rw [hbr]

/-- C4 amended witness: a one-user one-room map round-trips. -/
theorem room_user_roundtrip_witness :
    (getUserIdForRoomId { myUserId := "@me:x", getRoom := fun _ => none }
      (initState (some [("@a:x", ["!r1:x"])])) "!r1:x").1 = some "@a:x" :=
  room_user_roundtrip { myUserId := "@me:x", getRoom := fun _ => none }
    [("@a:x", ["!r1:x"])] "@a:x" "!r1:x" (by decide) (by decide) (by decide)

theorem guessed_fold_untouched (gs : List (String × String)) (m : DirectMap)
    (U : String) (h : ∀ pr ∈ gs, pr.1 ≠ U) :
    jLookup (gs.foldl (fun m ids =>
      match jLookup m ids.1 with
      | none => jSet m ids.1 [ids.2]
      | some roomIds => jSet m ids.1 (uniqJS (roomIds ++ [ids.2]))) m) U
      = jLookup m U := by
  induction gs generalizing m with
  | nil => rfl
  | cons pr gs ih =>
    simp only [List.foldl_cons]
    rw [ih _ (fun q hq => h q (List.mem_cons_of_mem pr hq))]
    have hne : U ≠ pr.1 := fun he => (h pr (List.mem_cons_self pr gs)) he.symm
    cases hl : jLookup m pr.1 with
    | none => exact jLookup_jSet_ne m pr.1 U [pr.2] hne
    | some roomIds => exact jLookup_jSet_ne m pr.1 U _ hne

theorem guessed_fold_mem_preserved (gs : List (String × String)) (m : DirectMap)
    (V R : String) (h : R ∈ (jLookup m V).getD []) :
    R ∈ (jLookup (gs.foldl (fun m ids =>
      match jLookup m ids.1 with
      | none => jSet m ids.1 [ids.2]
      | some roomIds => jSet m ids.1 (uniqJS (roomIds ++ [ids.2]))) m) V).getD [] := by
  induction gs generalizing m with
  | nil => exact h
  | cons pr gs ih =>
    simp only [List.foldl_cons]
    apply ih
    by_cases hv : pr.1 = V
    · subst hv
      cases hl : jLookup m pr.1 with
      | none =>
        rw [hl] at h
        simp at h
      | some roomIds =>
        rw [hl] at h
        simp only [Option.getD_some] at h
        rw [jLookup_jSet_self]
        simp only [Option.getD_some]
        rw [mem_uniqJS]
        exact List.mem_append.mpr (Or.inl h)
    · cases hl : jLookup m pr.1 with
      | none =>
        rw [jLookup_jSet_ne m pr.1 V _ (fun he => hv he.symm)]
        exact h
      | some roomIds =>
        rw [jLookup_jSet_ne m pr.1 V _ (fun he => hv he.symm)]
        exact h

theorem guessed_fold_mem (gs : List (String × String)) (m : DirectMap)
    (V R : String) (h : (V, R) ∈ gs) :
    R ∈ (jLookup (gs.foldl (fun m ids =>
      match jLookup m ids.1 with
      | none => jSet m ids.1 [ids.2]
      | some roomIds => jSet m ids.1 (uniqJS (roomIds ++ [ids.2]))) m) V).getD [] := by
  induction gs generalizing m with
  | nil => simp at h
  | cons pr gs ih =>
    simp only [List.foldl_cons]
    rcases List.mem_cons.mp h with heq | hmem
    · apply guessed_fold_mem_preserved
      subst heq
      dsimp only
      cases hl : jLookup m V with
      | none =>
        rw [jLookup_jSet_self]
        simp
      | some roomIds =>
        rw [jLookup_jSet_self]
        simp only [Option.getD_some]
        rw [mem_uniqJS]
        exact List.mem_append.mpr (Or.inr (List.mem_singleton.mpr rfl))
    · exact ih _ hmem

theorem guessed_fold_nodup_preserved (gs : List (String × String)) (m : DirectMap)
    (V : String) (h : ((jLookup m V).getD []).Nodup) :
    ((jLookup (gs.foldl (fun m ids =>
      match jLookup m ids.1 with
      | none => jSet m ids.1 [ids.2]
      | some roomIds => jSet m ids.1 (uniqJS (roomIds ++ [ids.2]))) m) V).getD
        []).Nodup := by
  induction gs generalizing m with
  | nil => exact h
  | cons pr gs ih =>
    simp only [List.foldl_cons]
    apply ih
    by_cases hv : pr.1 = V
    · subst hv
      cases hl : jLookup m pr.1 with
      | none =>
        rw [jLookup_jSet_self]
        simp
      | some roomIds =>
        rw [jLookup_jSet_self]
        simp only [Option.getD_some]
        exact nodup_uniqJS _
    · cases hl : jLookup m pr.1 with
      | none =>
        rw [jLookup_jSet_ne m pr.1 V _ (fun he => hv he.symm)]
        exact h
      | some roomIds =>
        rw [jLookup_jSet_ne m pr.1 V _ (fun he => hv he.symm)]
        exact h

theorem guessed_fold_nodup (gs : List (String × String)) (m : DirectMap)
    (V : String) (h : ∃ r, (V, r) ∈ gs) :
    ((jLookup (gs.foldl (fun m ids =>
      match jLookup m ids.1 with
      | none => jSet m ids.1 [ids.2]
      | some roomIds => jSet m ids.1 (uniqJS (roomIds ++ [ids.2]))) m) V).getD
        []).Nodup := by
  induction gs generalizing m with
  | nil =>
    rcases h with ⟨r, hr⟩
    simp at hr
  | cons pr gs ih =>
    simp only [List.foldl_cons]
    by_cases hv : pr.1 = V
    · subst hv
      apply guessed_fold_nodup_preserved
      cases hl : jLookup m pr.1 with
      | none =>
        rw [jLookup_jSet_self]
        simp
      | some roomIds =>
        rw [jLookup_jSet_self]
        simp only [Option.getD_some]
        exact nodup_uniqJS _
    · rcases h with ⟨r, hr⟩
      rcases List.mem_cons.mp hr with heq | hmem
      · exfalso
        apply hv
        rw [← heq]
      · exact ih _ ⟨r, hmem⟩

theorem guessed_spec (env : Client) (l : List String) (pr : String × String)
    (h : pr ∈ l.filterMap (fun roomId =>
      match env.getRoom roomId with
      | some room =>
        if room.guessDMUserId ≠ "" ∧ room.guessDMUserId ≠ env.myUserId then
          some (room.guessDMUserId, roomId)
        else none
      | none => none)) :
    pr.1 ≠ "" ∧ pr.1 ≠ env.myUserId ∧ pr.2 ∈ l := by
  rcases List.mem_filterMap.mp h with ⟨rid, hrid, hf⟩
  cases hroom : env.getRoom rid with
  | none =>
    simp only [hroom] at hf
    cases hf
  | some room =>
    simp only [hroom] at hf
    by_cases hc : room.guessDMUserId ≠ "" ∧ room.guessDMUserId ≠ env.myUserId
    · rw [if_pos hc] at hf
      obtain rfl := (Option.some.inj hf)
      exact ⟨hc.1, hc.2, hrid⟩
    · rw [if_neg hc] at hf
      cases hf

/-- C1: given a Direct Map in which the current user maps to a room whose
guessed counterpart V is a different (truthy) user, after one rebuild of
User→Rooms the rooms-for-user query no longer lists the room under the
current user, lists it under V, and the list served for V is
de-duplicated. -/
theorem self_chat_repair (env : Client) (m : DirectMap) (l : List String)
    (R V : String) (room : RoomInfo)
    (hU : jLookup m env.myUserId = some l) (hR : R ∈ l)
    (hroom : env.getRoom R = some room) (hguess : room.guessDMUserId = V)
    (hV0 : V ≠ "") (hVU : V ≠ env.myUserId) :
    R ∉ (getDMRoomsForUserId env
          ((getUserToRooms env (initState (some m))).2) env.myUserId).1 ∧
    R ∈ (getDMRoomsForUserId env
          ((getUserToRooms env (initState (some m))).2) V).1 ∧
    ((getDMRoomsForUserId env
          ((getUserToRooms env (initState (some m))).2) V).1).Nodup := by
  have hgR : (fun roomId =>
      match env.getRoom roomId with
      | some room =>
        if room.guessDMUserId ≠ "" ∧ room.guessDMUserId ≠ env.myUserId then
          some (room.guessDMUserId, roomId)
        else none
      | none => none) R = some (V, R) := by
    simp only [hroom]
    rw [hguess]
    rw [if_pos ⟨hV0, hVU⟩]
  have hVmem : (V, R) ∈ l.filterMap (fun roomId =>
      match env.getRoom roomId with
      | some room =>
        if room.guessDMUserId ≠ "" ∧ room.guessDMUserId ≠ env.myUserId then
          some (room.guessDMUserId, roomId)
        else none
      | none => none) := List.mem_filterMap.mpr ⟨R, hR, hgR⟩
  have hlne : l ≠ [] := by
    intro hnil
    subst hnil
    simp at hR
  have hreb : rebuiltMap env m = (patchUpSelfDMs env m).2 := by
    unfold rebuiltMap
    rw [hU]
    simp [hlne]
  have hpatch : (patchUpSelfDMs env m).2 =
      (l.filterMap (fun roomId =>
        match env.getRoom roomId with
        | some room =>
          if room.guessDMUserId ≠ "" ∧ room.guessDMUserId ≠ env.myUserId then
            some (room.guessDMUserId, roomId)
          else none
        | none => none)).foldl (fun m ids =>
          match jLookup m ids.1 with
          | none => jSet m ids.1 [ids.2]
          | some roomIds => jSet m ids.1 (uniqJS (roomIds ++ [ids.2])))
        (jSet m env.myUserId
          (l.filter (fun roomId =>
            ! (l.filterMap (fun roomId =>
              match env.getRoom roomId with
              | some room =>
                if room.guessDMUserId ≠ "" ∧ room.guessDMUserId ≠ env.myUserId then
                  some (room.guessDMUserId, roomId)
                else none
              | none => none)).any (fun ids => ids.2 == roomId)))) := by
    simp only [patchUpSelfDMs, hU]
    split
    · rename_i hemp
      exfalso
      have hnil := List.isEmpty_iff.mp hemp
      rw [hnil] at hVmem
      simp at hVmem
    · rfl
  have hr := getUserToRooms_rebuild env (initState (some m)) rfl
  have hq : ∀ u, (getDMRoomsForUserId env
      ((getUserToRooms env (initState (some m))).2) u).1
      = (jLookup (rebuiltMap env m) u).getD [] := by
    intro u
    rw [getDMRoomsForUserId_fst, getUserToRooms_cached env _ _ hr.2.1]
    rfl
  refine ⟨?_, ?_, ?_⟩
  · rw [hq, hreb, hpatch]
    rw [guessed_fold_untouched _ _ _
      (fun pr hpr => (guessed_spec env l pr hpr).2.1)]
    rw [jLookup_jSet_self]
    simp only [Option.getD_some]
    intro hRf
    rcases List.mem_filter.mp hRf with ⟨-, hpred⟩
    have hany : (l.filterMap (fun roomId =>
        match env.getRoom roomId with
        | some room =>
          if room.guessDMUserId ≠ "" ∧ room.guessDMUserId ≠ env.myUserId then
            some (room.guessDMUserId, roomId)
          else none
        | none => none)).any (fun ids => ids.2 == R) = true :=
      List.any_eq_true.mpr ⟨(V, R), hVmem, by simp⟩
    rw [hany] at hpred
    cases hpred
  · rw [hq, hreb, hpatch]
    exact guessed_fold_mem _ _ _ _ hVmem
  · rw [hq, hreb, hpatch]
    exact guessed_fold_nodup _ _ _ ⟨R, hVmem⟩

/-- C1 witness: one mis-attributed self-chat with a guessed counterpart is
moved from the current user to the guessed user. -/
theorem self_chat_repair_witness :
    "!r:x" ∉ (getDMRoomsForUserId
      { myUserId := "@me:x",
        getRoom := fun r => if r == "!r:x" then
          some { roomId := "!r:x", guessDMUserId := "@other:x",
                 getDMInviter := none, getMyMembership := "join",
                 getInvitedAndJoinedMemberCount := 2 }
          else none }
      ((getUserToRooms
        { myUserId := "@me:x",
          getRoom := fun r => if r == "!r:x" then
            some { roomId := "!r:x", guessDMUserId := "@other:x",
                   getDMInviter := none, getMyMembership := "join",
                   getInvitedAndJoinedMemberCount := 2 }
            else none }
        (initState (some [("@me:x", ["!r:x"])]))).2) "@me:x").1 ∧
    "!r:x" ∈ (getDMRoomsForUserId
      { myUserId := "@me:x",
        getRoom := fun r => if r == "!r:x" then
          some { roomId := "!r:x", guessDMUserId := "@other:x",
                 getDMInviter := none, getMyMembership := "join",
                 getInvitedAndJoinedMemberCount := 2 }
          else none }
      ((getUserToRooms
        { myUserId := "@me:x",
          getRoom := fun r => if r == "!r:x" then
            some { roomId := "!r:x", guessDMUserId := "@other:x",
                   getDMInviter := none, getMyMembership := "join",
                   getInvitedAndJoinedMemberCount := 2 }
            else none }
        (initState (some [("@me:x", ["!r:x"])]))).2) "@other:x").1 ∧
    ((getDMRoomsForUserId
      { myUserId := "@me:x",
        getRoom := fun r => if r == "!r:x" then
          some { roomId := "!r:x", guessDMUserId := "@other:x",
                 getDMInviter := none, getMyMembership := "join",
                 getInvitedAndJoinedMemberCount := 2 }
          else none }
      ((getUserToRooms
        { myUserId := "@me:x",
          getRoom := fun r => if r == "!r:x" then
            some { roomId := "!r:x", guessDMUserId := "@other:x",
                   getDMInviter := none, getMyMembership := "join",
                   getInvitedAndJoinedMemberCount := 2 }
            else none }
        (initState (some [("@me:x", ["!r:x"])]))).2) "@other:x").1).Nodup :=
  self_chat_repair
    { myUserId := "@me:x",
      getRoom := fun r => if r == "!r:x" then
        some { roomId := "!r:x", guessDMUserId := "@other:x",
               getDMInviter := none, getMyMembership := "join",
               getInvitedAndJoinedMemberCount := 2 }
        else none }
    [("@me:x", ["!r:x"])] ["!r:x"] "!r:x" "@other:x"
    { roomId := "!r:x", guessDMUserId := "@other:x",
      getDMInviter := none, getMyMembership := "join",
      getInvitedAndJoinedMemberCount := 2 }
    (by decide) (by decide) (by decide) rfl (by decide) (by decide)

theorem jLookup_isSome_of_mem_keys {α : Type} (m : List (String × α)) (k : String)
    (h : k ∈ m.map Prod.fst) : ∃ v, jLookup m k = some v := by
  induction m with
  | nil => simp at h
  | cons p m ih =>
    by_cases hp : (p.1 == k) = true
    · exact ⟨p.2, by simp [jLookup, hp]⟩
    · simp only [List.map_cons, List.mem_cons] at h
      rcases h with heq | h2
      · exfalso
        apply hp
        rw [heq]
        simp
      · rcases ih h2 with ⟨v, hv⟩
        exact ⟨v, by simp [jLookup, hp, hv]⟩

theorem map_fst_map_update {α : Type} (m : List (String × α)) (k : String) (v : α) :
    ((m.map (fun p => if p.1 == k then (k, v) else p)).map Prod.fst) =
      m.map Prod.fst := by
  induction m with
  | nil => rfl
  | cons p m ih =>
    by_cases hp : (p.1 == k) = true
    · have hpk : p.1 = k := by simpa using hp
      simp only [List.map_cons, if_pos hp, ih]
      rw [hpk]
    · simp only [List.map_cons, if_neg hp, ih]

theorem keys_jSet_existing {α : Type} (m : List (String × α)) (k : String) (v : α)
    (hk : m.any (fun p => p.1 == k) = true) :
    (jSet m k v).map Prod.fst = m.map Prod.fst := by
  unfold jSet
  rw [if_pos hk]
  exact map_fst_map_update m k v

theorem keys_jSet_new {α : Type} (m : List (String × α)) (k : String) (v : α)
    (hk : m.any (fun p => p.1 == k) = false) :
    (jSet m k v).map Prod.fst = m.map Prod.fst ++ [k] := by
  unfold jSet
  rw [hk]
  simp

theorem nodup_keys_jSet {α : Type} (m : List (String × α)) (k : String) (v : α)
    (hnd : (m.map Prod.fst).Nodup) : ((jSet m k v).map Prod.fst).Nodup := by
  cases hk : m.any (fun p => p.1 == k) with
  | true =>
    rw [keys_jSet_existing m k v hk]
    exact hnd
  | false =>
    rw [keys_jSet_new m k v hk]
    have hknot : k ∉ m.map Prod.fst := by
      intro hmem
      rcases jLookup_isSome_of_mem_keys m k hmem with ⟨v2, hv2⟩
      have h2 := jLookup_isSome_eq_any m k
      rw [hv2, hk] at h2
      cases h2
    simp [List.nodup_append, hnd, hknot]

theorem mem_flatten_jSet_existing (m : DirectMap) (k : String) (v : List String)
    (x : String) (hk : m.any (fun p => p.1 == k) = true) :
    (x ∈ flattenVals (jSet m k v)) ↔
      (x ∈ v ∨ ∃ p ∈ m, p.1 ≠ k ∧ x ∈ p.2) := by
  rw [mem_flattenVals]
  unfold jSet
  rw [if_pos hk]
  constructor
  · rintro ⟨p, hp, hx⟩
    rcases List.mem_map.mp hp with ⟨q, hq, heq⟩
    by_cases hqk : (q.1 == k) = true
    · rw [if_pos hqk] at heq
      subst heq
      exact Or.inl hx
    · rw [if_neg hqk] at heq
      subst heq
      refine Or.inr ⟨q, hq, ?_, hx⟩
      intro he
      apply hqk
      rw [he]
      simp
  · rintro (hx | ⟨p, hp, hpk, hx⟩)
    · rcases List.any_eq_true.mp hk with ⟨q, hq, hqk⟩
      refine ⟨(k, v), List.mem_map.mpr ⟨q, hq, ?_⟩, hx⟩
      rw [if_pos hqk]
    · refine ⟨p, List.mem_map.mpr ⟨p, hp, ?_⟩, hx⟩
      rw [if_neg (by simp [hpk])]

theorem mem_flatten_jSet_new (m : DirectMap) (k : String) (v : List String)
    (x : String) (hk : m.any (fun p => p.1 == k) = false) :
    (x ∈ flattenVals (jSet m k v)) ↔ (x ∈ v ∨ x ∈ flattenVals m) := by
  rw [mem_flattenVals, mem_flattenVals]
  unfold jSet
  rw [hk]
  simp only [Bool.false_eq_true, if_false]
  constructor
  · rintro ⟨p, hp, hx⟩
    rcases List.mem_append.mp hp with h2 | h2
    · exact Or.inr ⟨p, h2, hx⟩
    · rw [List.mem_singleton.mp h2] at hx
      exact Or.inl hx
  · rintro (hx | ⟨p, hp, hx⟩)
    · exact ⟨(k, v), List.mem_append.mpr (Or.inr (List.mem_singleton.mpr rfl)), hx⟩
    · exact ⟨p, List.mem_append.mpr (Or.inl hp), hx⟩

theorem mem_flatten_split (m : DirectMap) (k : String) (L : List String)
    (x : String) (hnd : (m.map Prod.fst).Nodup) (hL : jLookup m k = some L) :
    (x ∈ flattenVals m) ↔ (x ∈ L ∨ ∃ p ∈ m, p.1 ≠ k ∧ x ∈ p.2) := by
  rw [mem_flattenVals]
  constructor
  · rintro ⟨p, hp, hx⟩
    by_cases hpk : p.1 = k
    · left
      have h2 := jLookup_eq_some_of_mem_nodup m p.1 p.2 hnd (by simpa using hp)
      rw [hpk] at h2
      rw [hL] at h2
      obtain h3 := Option.some.inj h2
      rw [h3]
      exact hx
    · exact Or.inr ⟨p, hp, hpk, hx⟩
  · rintro (hx | ⟨p, hp, hpk, hx⟩)
    · exact ⟨(k, L), mem_of_jLookup_eq_some m k L hL, hx⟩
    · exact ⟨p, hp, hx⟩

theorem flatten_step_none (m : DirectMap) (pr : String × String) (x : String)
    (hl : jLookup m pr.1 = none) :
    (x ∈ flattenVals (jSet m pr.1 [pr.2])) ↔ (x = pr.2 ∨ x ∈ flattenVals m) := by
  have hk : m.any (fun p => p.1 == pr.1) = false := by
    have h2 := jLookup_isSome_eq_any m pr.1
    rw [hl] at h2
    exact h2.symm
  rw [mem_flatten_jSet_new m pr.1 [pr.2] x hk]
  simp

theorem flatten_step_some (m : DirectMap) (pr : String × String)
    (roomIds : List String) (x : String) (hnd : (m.map Prod.fst).Nodup)
    (hl : jLookup m pr.1 = some roomIds) :
    (x ∈ flattenVals (jSet m pr.1 (uniqJS (roomIds ++ [pr.2])))) ↔
      (x = pr.2 ∨ x ∈ flattenVals m) := by
  have hk : m.any (fun p => p.1 == pr.1) = true := by
    have h2 := jLookup_isSome_eq_any m pr.1
    rw [hl] at h2
    exact h2.symm
  rw [mem_flatten_jSet_existing m pr.1 _ x hk]
  rw [mem_flatten_split m pr.1 roomIds x hnd hl]
  rw [mem_uniqJS]
  simp only [List.mem_append, List.mem_singleton]
  tauto

theorem flatten_guessed_fold (gs : List (String × String)) (m : DirectMap)
    (x : String) (hnd : (m.map Prod.fst).Nodup) :
    (x ∈ flattenVals (gs.foldl (fun m ids =>
      match jLookup m ids.1 with
      | none => jSet m ids.1 [ids.2]
      | some roomIds => jSet m ids.1 (uniqJS (roomIds ++ [ids.2]))) m)) ↔
    (x ∈ flattenVals m ∨ ∃ pr ∈ gs, x = pr.2) := by
  induction gs generalizing m with
  | nil => simp
  | cons pr gs ih =>
    simp only [List.foldl_cons]
    have hnd2 : (((match jLookup m pr.1 with
        | none => jSet m pr.1 [pr.2]
        | some roomIds => jSet m pr.1 (uniqJS (roomIds ++ [pr.2]))) :
          DirectMap).map Prod.fst).Nodup := by
      cases hl : jLookup m pr.1 with
      | none => exact nodup_keys_jSet m pr.1 _ hnd
      | some roomIds => exact nodup_keys_jSet m pr.1 _ hnd
    have hstep : (x ∈ flattenVals ((match jLookup m pr.1 with
        | none => jSet m pr.1 [pr.2]
        | some roomIds => jSet m pr.1 (uniqJS (roomIds ++ [pr.2]))) :
          DirectMap)) ↔ (x = pr.2 ∨ x ∈ flattenVals m) := by
      cases hl : jLookup m pr.1 with
      | none => exact flatten_step_none m pr x hl
      | some roomIds => exact flatten_step_some m pr roomIds x hnd hl
    rw [ih _ hnd2, hstep]
    constructor
    · rintro ((rfl | hx) | ⟨q, hq, rfl⟩)
      · exact Or.inr ⟨pr, List.mem_cons_self _ _, rfl⟩
      · exact Or.inl hx
      · exact Or.inr ⟨q, List.mem_cons_of_mem _ hq, rfl⟩
    · rintro (hx | ⟨q, hq, rfl⟩)
      · exact Or.inl (Or.inr hx)
      · rcases List.mem_cons.mp hq with rfl | hq2
        · exact Or.inl (Or.inl rfl)
        · exact Or.inr ⟨q, hq2, rfl⟩

theorem flatten_patch (env : Client) (m : DirectMap) (x : String)
    (hnd : (m.map Prod.fst).Nodup) :
    (x ∈ flattenVals (patchUpSelfDMs env m).2) ↔ x ∈ flattenVals m := by
  cases hl : jLookup m env.myUserId with
  | none =>
    have hp : patchUpSelfDMs env m = (false, m) := by
      simp only [patchUpSelfDMs, hl]
    rw [hp]
  | some l =>
    by_cases hemp : (l.filterMap (fun roomId =>
        match env.getRoom roomId with
        | some room =>
          if room.guessDMUserId ≠ "" ∧ room.guessDMUserId ≠ env.myUserId then
            some (room.guessDMUserId, roomId)
          else none
        | none => none)).isEmpty = true
    · have hp : patchUpSelfDMs env m = (false, m) := by
        simp only [patchUpSelfDMs, hl]
        rw [if_pos hemp]
      rw [hp]
    · have hp : (patchUpSelfDMs env m).2 =
        (l.filterMap (fun roomId =>
          match env.getRoom roomId with
          | some room =>
            if room.guessDMUserId ≠ "" ∧ room.guessDMUserId ≠ env.myUserId then
              some (room.guessDMUserId, roomId)
            else none
          | none => none)).foldl (fun m ids =>
            match jLookup m ids.1 with
            | none => jSet m ids.1 [ids.2]
            | some roomIds => jSet m ids.1 (uniqJS (roomIds ++ [ids.2])))
          (jSet m env.myUserId
            (l.filter (fun roomId =>
              ! (l.filterMap (fun roomId =>
                match env.getRoom roomId with
                | some room =>
                  if room.guessDMUserId ≠ "" ∧ room.guessDMUserId ≠ env.myUserId
                  then some (room.guessDMUserId, roomId)
                  else none
                | none => none)).any (fun ids => ids.2 == roomId)))) := by
        simp only [patchUpSelfDMs, hl]
        rw [if_neg hemp]
      rw [hp]
      have hkU : m.any (fun p => p.1 == env.myUserId) = true := by
        have h2 := jLookup_isSome_eq_any m env.myUserId
        rw [hl] at h2
        exact h2.symm
      have hnd1 : ((jSet m env.myUserId
          (l.filter (fun roomId =>
            ! (l.filterMap (fun roomId =>
              match env.getRoom roomId with
              | some room =>
                if room.guessDMUserId ≠ "" ∧ room.guessDMUserId ≠ env.myUserId
                then some (room.guessDMUserId, roomId)
                else none
              | none => none)).any (fun ids => ids.2 == roomId)))).map
            Prod.fst).Nodup := by
        rw [keys_jSet_existing _ _ _ hkU]
        exact hnd
      rw [flatten_guessed_fold _ _ x hnd1]
      rw [mem_flatten_jSet_existing _ _ _ x hkU]
      rw [mem_flatten_split m env.myUserId l x hnd hl]
      constructor
      · rintro ((hx | hE) | ⟨q, hq, rfl⟩)
        · exact Or.inl (List.mem_of_mem_filter hx)
        · exact Or.inr hE
        · exact Or.inl ((guessed_spec env l q hq).2.2)
      · rintro (hx | hE)
        · by_cases hany : (l.filterMap (fun roomId =>
              match env.getRoom roomId with
              | some room =>
                if room.guessDMUserId ≠ "" ∧ room.guessDMUserId ≠ env.myUserId
                then some (room.guessDMUserId, roomId)
                else none
              | none => none)).any (fun ids => ids.2 == x) = true
          · rcases List.any_eq_true.mp hany with ⟨q, hq, hqx⟩
            have hx2 : q.2 = x := by simpa using hqx
            exact Or.inr ⟨q, hq, hx2.symm⟩
          · refine Or.inl (Or.inl (List.mem_filter.mpr ⟨hx, ?_⟩))
            have hfalse := Bool.eq_false_iff.mpr hany
            simp [hfalse]
        · exact Or.inl (Or.inr hE)

/-- C10: the de-duplicated set of room identifiers reported by the
all-room-identifiers query over the raw Direct Map is unchanged by one
rebuild (and therefore by the self-chat repair pass the rebuild runs),
for any Direct Map with JavaScript-object key uniqueness. -/
theorem repair_preserves_roomIds (env : Client) (m : DirectMap) (x : String)
    (hnd : (m.map Prod.fst).Nodup) :
    (x ∈ getRoomIds ((getUserToRooms env (initState (some m))).2) ↔
     x ∈ getRoomIds (initState (some m))) := by
  have hr := getUserToRooms_rebuild env (initState (some m)) rfl
  unfold getRoomIds
  rw [hr.2.2.1]
  rw [mem_uniqJS, mem_uniqJS]
  show x ∈ flattenVals (rebuiltMap env m) ↔ x ∈ flattenVals m
  unfold rebuiltMap
  by_cases hc : (jLookup m env.myUserId).getD [] ≠ []
  · rw [if_pos hc]
    exact flatten_patch env m x hnd
  · rw [if_neg hc]

/-- C10 witness: the room set is preserved across a rebuild that actually
reassigns a self-chat. -/
theorem repair_preserves_roomIds_witness :
    ("!r:x" ∈ getRoomIds ((getUserToRooms
      { myUserId := "@me:x",
        getRoom := fun r => if r == "!r:x" then
          some { roomId := "!r:x", guessDMUserId := "@other:x",
                 getDMInviter := none, getMyMembership := "join",
                 getInvitedAndJoinedMemberCount := 2 }
          else none }
      (initState (some [("@me:x", ["!r:x"])]))).2) ↔
     "!r:x" ∈ getRoomIds (initState (some [("@me:x", ["!r:x"])]))) :=
  repair_preserves_roomIds
    { myUserId := "@me:x",
      getRoom := fun r => if r == "!r:x" then
        some { roomId := "!r:x", guessDMUserId := "@other:x",
               getDMInviter := none, getMyMembership := "join",
               getInvitedAndJoinedMemberCount := 2 }
        else none }
    [("@me:x", ["!r:x"])] "!r:x" (by decide)

/-- C9 counterexample: a present but malformed Direct Map payload (a value
that is not a list) is stored as-is rather than as the empty mapping, and the
all-room-identifiers query raises a TypeError on it. -/
theorem raw_payload_cex :
    rawDirectContent (some [("@u:x", JVal.nonList)]) ≠ [] ∧
    getRoomIdsRaw (rawDirectContent (some [("@u:x", JVal.nonList)])) =
      Except.error "TypeError: roomIds.forEach is not a function" := by
  constructor
  · decide
  · rfl
